import Mathlib

/-!
Shallow embedding of the forza-drift-bot leaderboard core (src/bot.py).

Python dicts are insertion-ordered, so they are modelled as association
lists over `String` keys.  The source file contains two concatenated
revisions of the bot; where the two revisions of a command differ the
embedding carries both (`submitV1` for the first listing, `submitV2` for
the second).  `time.time()` values are modelled as exact integers, and the
JSON file on disk is modelled by `FileState` (missing, syntactically
corrupt, or a parsed leaderboard value), with `json.dump`/`json.load`
assumed to be mutually inverse on well-formed data.
-/

namespace ForzaDriftBot

/-- Association list with string keys: the model of a Python dict. -/
abbrev AList (α : Type) := List (String × α)

/-- `d[k]` / `d.get(k)`: first binding of `k`, if any. -/
def alookup {α : Type} : AList α → String → Option α
  | [], _ => none
  | (k2, v) :: rest, k => if k2 = k then some v else alookup rest k

/-- `d[k] = v`: overwrite in place if the key exists, else append (Python
dict assignment keeps the key's original position). -/
def aset {α : Type} : AList α → String → α → AList α
  | [], k, v => [(k, v)]
  | (k2, v2) :: rest, k, v =>
      if k2 = k then (k, v) :: rest else (k2, v2) :: aset rest k v

/-- `d.setdefault(k, v)`: no change if the key exists, else append. -/
def setdefault {α : Type} (l : AList α) (k : String) (v : α) : AList α :=
  match alookup l k with
  | some _ => l
  | none => l ++ [(k, v)]

/-- Replace the value bound to `k` (if present) by `f` of it; used to model
in-place mutation of a nested dict obtained by indexing. -/
def amodify {α : Type} : AList α → String → (α → α) → AList α
  | [], _, _ => []
  | (k2, v) :: rest, k, f =>
      if k2 = k then (k2, f v) :: rest else (k2, v) :: amodify rest k f

/-- `del d[k]`: remove the binding of `k`, if present. -/
def adelete {α : Type} : AList α → String → AList α
  | [], _ => []
  | (k2, v) :: rest, k => if k2 = k then rest else (k2, v) :: adelete rest k

/-- `list(d.keys())`. -/
def akeys {α : Type} (l : AList α) : List String := l.map Prod.fst

/-- `base.update(upd)`: fold dict assignment over the entries of `upd`. -/
def dictUpdate {α : Type} (base upd : AList α) : AList α :=
  upd.foldl (fun b p => aset b p.1 p.2) base

/-! ## Data model (bot.py lines 35-42) -/

/-- user name → best score for one layout. -/
abbrev ScoreMap := AList Int
/-- layout name → scores. -/
abbrev LayoutMap := AList ScoreMap
/-- track name → layouts. -/
abbrev TrackMap := AList LayoutMap
/-- drive type → tracks: the whole `leaderboard` global. -/
abbrev Board := AList TrackMap

instance : DecidableEq ScoreMap := inferInstance

instance : DecidableEq LayoutMap := inferInstance

instance : DecidableEq TrackMap := inferInstance

instance : DecidableEq Board := inferInstance

/-- `leaderboard = {"RWD": {}, "AWD": {}, "FWD": {}}` (bot.py line 35). -/
def initialLeaderboard : Board := [("RWD", []), ("AWD", []), ("FWD", [])]

/-- `DRIVE_TYPES = ["RWD", "AWD", "FWD"]` (bot.py line 41). -/
def DRIVE_TYPES : List String := ["RWD", "AWD", "FWD"]

/-- `COOLDOWN_SECONDS = 30` (bot.py line 20). -/
def COOLDOWN_SECONDS : Int := 30

/-- The `TRACKS` catalog (bot.py lines 46-157). -/
def TRACKS : AList (List String) := [
  ("Brands Hatch", ["Grand Prix Circuit", "Indy Circuit"]),
  ("Circuit de Barcelona-Catalunya",
    ["Grand Prix Circuit", "National Circuit", "National Circuit Alt"]),
  ("Circuit de Spa-Francorchamps", ["Full Circuit"]),
  ("Daytona International Speedway", ["Sport Car Circuit", "Tri-Oval Circuit"]),
  ("Eaglerock Speedway", ["Oval Circuit", "Clubs Circuit", "Clubs Circuit Reverse"]),
  ("Fujimi Kaido", ["Fujimi Circuit", "Fujimi Circuit Reverse"]),
  ("Grand Oak Raceway",
    ["National Circuit", "Clubs Circuit", "National Circuit Reverse"]),
  ("Hakone", ["Grand Prix Circuit", "Club Circuit", "Club Circuit Reverse"]),
  ("Hockenheimring", ["Full Circuit", "National Circuit", "Short Circuit"]),
  ("Homestead-Miami Speedway", ["Speedway Circuit", "Road Circuit"]),
  ("Indianapolis Motor Speedway", ["The Brickyard Speedway", "Grand Prix Circuit"]),
  ("Kyalami Grand Prix Circuit", ["Grand Prix Circuit"]),
  ("Le Mans - Circuit International de la Sarthe",
    ["Full Circuit", "Old Musanne Circuit"]),
  ("Lime Rock Park", ["Full Circuit", "South Chicane", "Full Circuit Alt"]),
  ("Maple Valley", ["Full Circuit", "Short Circuit", "Short Circuit Reverse"]),
  ("Michelin Raceway Road Atlanta", ["Grand Prix Course", "Short Course"]),
  ("Mid-Ohio Sports Car Course", ["Sports Car Circuit", "Short Circuit"]),
  ("Mount Panorama Circuit", ["Bathurst"]),
  ("Mugello Circuit", ["Full Circuit", "Club Circuit"]),
  ("Nürburgring", ["Full Circuit", "Nordschleife", "GP Circuit", "Sprint Circuit"]),
  ("Road America", ["Full Circuit", "Easte Route"]),
  ("Sebring International Raceway", ["Full Circuit", "Short Circuit"]),
  ("Silverstone Circuit",
    ["Grand Prix Circuit", "National Circuit", "International Circuit"]),
  ("Sunset Peninsula Raceway",
    ["Full Circuit", "Club Circuit", "Full Circuit Reverse",
     "Club Circuit Reverse", "Speedway"]),
  ("Suzuka Circuit", ["Full Circuit", "East Route"]),
  ("Virginia International Raceway",
    ["Full", "North", "South", "Grand West", "Grand East"]),
  ("Watkins Glen International Speedway", ["Full Circuit", "Short Circuit"]),
  ("WeatherTech Raceway Laguna Seca", ["Full Circuit", "Short Circuit"]),
  ("Yas Marina Circuit",
    ["Full Circuit", "North Circuit", "South Circuit", "North Corkscrew"])]

/-- `track in TRACKS and layout in TRACKS[track]` (bot.py lines 245, 470). -/
def validTrackLayout (t l : String) : Bool :=
  match alookup TRACKS t with
  | none => false
  | some layouts => layouts.contains l

/-! ## Persistence (bot.py lines 162-179) -/

/-- State of the `leaderboard.json` file: absent, malformed JSON, or a
parsed value. -/
inductive FileState : Type
  | missing : FileState
  | corrupt : FileState
  | valid : Board → FileState
deriving DecidableEq

/-- `save_leaderboard` (bot.py lines 162-164): the file becomes the
serialization of the current store. -/
def saveLeaderboard (store : Board) : FileState := .valid store

/-- `load_leaderboard` (bot.py lines 166-179): missing file → write the
current store out; malformed JSON → reset to the per-category empty state
and re-flush; parsed value → `leaderboard.update(json.load(f))`, file
untouched.  Returns the new store and the new file state. -/
def load_leaderboard (store : Board) (f : FileState) : Board × FileState :=
  match f with
  | .missing => (store, saveLeaderboard store)
  | .corrupt =>
      let reset : Board := [("RWD", []), ("AWD", []), ("FWD", [])]
      (reset, saveLeaderboard reset)
  | .valid data => (dictUpdate store data, .valid data)

/-! ## Submission (bot.py lines 226-261 and 436-497) -/

/-- Mutable bot state shared by the handlers: the `leaderboard` and
`last_submit_time` globals. -/
structure BotState where
  leaderboard : Board
  last_submit_time : AList Int
deriving DecidableEq

/-- Outcome reported to the caller of `/submit`. -/
inductive SubmitResult : Type
  | accepted : SubmitResult
  | rejectedCooldown : SubmitResult
  | rejectedInvalidScore : SubmitResult
  | rejectedInvalidDrive : SubmitResult
  | rejectedInvalidTrack : SubmitResult
  | rejectedNotBetter : Int → SubmitResult
deriving DecidableEq

/-- `leaderboard.setdefault(d, {}).setdefault(t, {}).setdefault(l, {})`
(bot.py lines 249, 474-476): create the nested path if absent. -/
def ensurePath (L : Board) (d t l : String) : Board :=
  amodify (setdefault L d []) d (fun tm =>
    amodify (setdefault tm t []) t (fun lm => setdefault lm l []))

/-- `leaderboard.get(d, {}).get(t, {}).get(l, {})` read of one layout's
score dict. -/
def getScores (L : Board) (d t l : String) : ScoreMap :=
  (alookup ((alookup ((alookup L d).getD []) t).getD []) l).getD []

/-- `leaderboard[d][t][l][user] = score` (bot.py lines 257, 487). -/
def setScore (L : Board) (d t l user : String) (score : Int) : Board :=
  amodify L d (fun tm => amodify tm t (fun lm =>
    amodify lm l (fun sm => aset sm user score)))

/-- Shared tail of both `submit` revisions (bot.py lines 249-261 and
474-497): ensure the path, read the personal best, reject if not strictly
better, else store, stamp the cooldown and flush.  The third component
records whether `save_leaderboard` ran. -/
def submitCore (st : BotState) (now : Int) (user d t l : String) (score : Int) :
    BotState × SubmitResult × Bool :=
  match alookup (getScores (ensurePath st.leaderboard d t l) d t l) user with
  | some current =>
      if score ≤ current then
        ({ st with leaderboard := ensurePath st.leaderboard d t l },
         .rejectedNotBetter current, false)
      else
        ({ leaderboard := setScore (ensurePath st.leaderboard d t l) d t l user score,
           last_submit_time := aset st.last_submit_time user now },
         .accepted, true)
  | none =>
      ({ leaderboard := setScore (ensurePath st.leaderboard d t l) d t l user score,
         last_submit_time := aset st.last_submit_time user now },
       .accepted, true)

/-- First-revision `/submit` (bot.py lines 232-261): cooldown, drive type
against `DRIVE_TYPES`, track/layout against `TRACKS` — note it performs no
check on the sign of `score`. -/
def submitV1 (st : BotState) (now : Int) (user d t l : String) (score : Int) :
    BotState × SubmitResult × Bool :=
  if now - (alookup st.last_submit_time user).getD 0 < COOLDOWN_SECONDS then
    (st, .rejectedCooldown, false)
  else if d ∉ DRIVE_TYPES then
    (st, .rejectedInvalidDrive, false)
  else if ¬ validTrackLayout t l then
    (st, .rejectedInvalidTrack, false)
  else
    submitCore st now user d t l score

/-- Second-revision `/submit` (bot.py lines 442-497): cooldown, then
`score < 1` rejection, then drive type against the `leaderboard` keys,
then track/layout. -/
def submitV2 (st : BotState) (now : Int) (user d t l : String) (score : Int) :
    BotState × SubmitResult × Bool :=
  if now - (alookup st.last_submit_time user).getD 0 < COOLDOWN_SECONDS then
    (st, .rejectedCooldown, false)
  else if score < 1 then
    (st, .rejectedInvalidScore, false)
  else if (alookup st.leaderboard d).isNone then
    (st, .rejectedInvalidDrive, false)
  else if ¬ validTrackLayout t l then
    (st, .rejectedInvalidTrack, false)
  else
    submitCore st now user d t l score

/-! ## Ranking queries (bot.py lines 265-327 and 501-535) -/

/-- `totals[user] = totals.get(user, 0) + score`. -/
def addScore (totals : AList Int) (u : String) (s : Int) : AList Int :=
  aset totals u ((alookup totals u).getD 0 + s)

/-- Accumulate one layout's scores into the running totals. -/
def accScores (totals : AList Int) (sm : ScoreMap) : AList Int :=
  sm.foldl (fun t p => addScore t p.1 p.2) totals

/-- Accumulate every layout of one track (`for layout in track.values()`). -/
def accLayouts (totals : AList Int) (lm : LayoutMap) : AList Int :=
  lm.foldl (fun t p => accScores t p.2) totals

/-- Accumulate every track of one drive type
(`for track in leaderboard.get(d, {}).values()`). -/
def accTracks (totals : AList Int) (tm : TrackMap) : AList Int :=
  tm.foldl (fun t p => accLayouts t p.2) totals

/-- Per-drive aggregate map of `leaderboard_drive` (bot.py lines 288-293
and 504-509). -/
def driveTotals (L : Board) (d : String) : AList Int :=
  accTracks [] ((alookup L d).getD [])

/-- Grand-total aggregate map of `leaderboard_overall` (bot.py lines
309-315 and 521-527): iterates every top-level key of the store. -/
def overallTotals (L : Board) : AList Int :=
  L.foldl (fun t dp => accTracks t dp.2) []

/-- `sorted(xs.items(), key=lambda x: x[1], reverse=True)` comparison:
descending by score. -/
def scoreDescRel (a b : String × Int) : Prop := b.2 ≤ a.2

instance : DecidableRel scoreDescRel :=
  fun a b => inferInstanceAs (Decidable (b.2 ≤ a.2))

instance : IsTotal (String × Int) scoreDescRel :=
  ⟨fun a b => (Int.le_total a.2 b.2).symm.imp (fun h => h) (fun h => h)⟩

instance : IsTrans (String × Int) scoreDescRel :=
  ⟨fun _ _ _ hab hbc => le_trans hbc hab⟩

/-- The sorted (descending) item list of an aggregate map.  Python's
`sorted` is a stable sort; a stable sort is extensionally unique, so it is
modelled by the (stable) insertion sort with the descending comparison. -/
def rankedList (totals : AList Int) : List (String × Int) :=
  totals.insertionSort scoreDescRel

/-- Entries displayed by `leaderboard_track` (bot.py lines 277-281):
sorted descending, first 10. -/
def leaderboardTrackEntries (L : Board) (d t l : String) : List (String × Int) :=
  (rankedList (getScores L d t l)).take 10

/-- Entries displayed by `leaderboard_drive` (bot.py lines 511-515). -/
def leaderboardDriveEntries (L : Board) (d : String) : List (String × Int) :=
  (rankedList (driveTotals L d)).take 10

/-- Entries displayed by `leaderboard_overall` (bot.py lines 529-533). -/
def leaderboardOverallEntries (L : Board) : List (String × Int) :=
  (rankedList (overallTotals L)).take 10

/-- `next(i for i, (u, _) in enumerate(sorted_users, 1) if u == user)`:
first index (counting from `i`) whose key is `user`; `none` models the
`StopIteration` case. -/
def nextIndex : List (String × Int) → String → Nat → Option Nat
  | [], _, _ => none
  | (u, _) :: rest, user, i =>
      if u = user then some i else nextIndex rest user (i + 1)

/-- `rank_for(total_map)` of `my_stats` (bot.py lines 557-559): 1-based
position in the descending ordering. -/
def rank_for (totals : AList Int) (user : String) : Option Nat :=
  nextIndex (rankedList totals) user 1

/-! ## my_stats, second revision (bot.py lines 540-589) -/

/-- The stats embed: overall total and rank, plus one field per drive type
that passed the `user in drive_map` test, carrying `per_drive[d]` and the
rank within that drive's aggregate map. -/
structure StatsResponse where
  overall : Int
  overallRank : Option Nat
  fields : List (String × Int × Option Nat)
deriving DecidableEq

instance {ε α : Type} [DecidableEq ε] [DecidableEq α] : DecidableEq (Except ε α)
  | .error e1, .error e2 =>
      if h : e1 = e2 then isTrue (by rw [h])
      else isFalse (by intro hh; cases hh; exact h rfl)
  | .error _, .ok _ => isFalse (by intro hh; cases hh)
  | .ok _, .error _ => isFalse (by intro hh; cases hh)
  | .ok a1, .ok a2 =>
      if h : a1 = a2 then isTrue (by rw [h])
      else isFalse (by intro hh; cases hh; exact h rfl)

/-- One `if user in layout` step of the accumulation loop (bot.py lines
546-551): `per_drive[drive] += layout[user]` raises `KeyError` when
`drive` is not a key of `per_drive`, modelled as `.error`. -/
def statsStep (user d : String) (acc : AList Int × Int) (sm : ScoreMap) :
    Except Unit (AList Int × Int) :=
  match alookup sm user with
  | none => .ok acc
  | some s =>
      match alookup acc.1 d with
      | none => .error ()
      | some cur => .ok (aset acc.1 d (cur + s), acc.2 + s)

/-- The full `per_drive` / `overall_total` accumulation of `my_stats`. -/
def myStatsAcc (L : Board) (user : String) : Except Unit (AList Int × Int) :=
  L.foldlM (fun acc dp =>
      dp.2.foldlM (fun acc2 tp =>
          tp.2.foldlM (fun acc3 lp => statsStep user dp.1 acc3 lp.2) acc2) acc)
    ([("RWD", 0), ("AWD", 0), ("FWD", 0)], 0)

/-- `my_stats`, second revision: `.error` models the `KeyError` crash,
`.ok none` the early `"You have no recorded scores."` reply, `.ok (some r)`
the stats embed. -/
def my_stats (L : Board) (user : String) : Except Unit (Option StatsResponse) :=
  match myStatsAcc L user with
  | .error e => .error e
  | .ok (perDrive, overallTotal) =>
      if overallTotal = 0 then .ok none
      else
        .ok (some
          { overall := overallTotal,
            overallRank := rank_for (overallTotals L) user,
            fields := DRIVE_TYPES.filterMap (fun d =>
              if (alookup (driveTotals L d) user).isSome then
                some (d, ((alookup perDrive d).getD 0, rank_for (driveTotals L d) user))
              else none) })

/-- The submitter has at least one score entry under drive type `d`. -/
def hasEntry (L : Board) (user d : String) : Bool :=
  ((alookup L d).getD []).any (fun tp => tp.2.any (fun lp => (alookup lp.2 user).isSome))

/-! ## Admin commands (bot.py lines 357-396 and 593-631) -/

/-- `delete_score` (bot.py lines 363-373): `del leaderboard[d][t][l][user]`
with `KeyError` caught, flushing only on success. -/
def delete_score (L : Board) (d t l user : String) : Board × Bool :=
  match alookup L d with
  | none => (L, false)
  | some tm =>
      match alookup tm t with
      | none => (L, false)
      | some lm =>
          match alookup lm l with
          | none => (L, false)
          | some sm =>
              match alookup sm user with
              | none => (L, false)
              | some _ =>
                  (amodify L d (fun tm2 => amodify tm2 t (fun lm2 =>
                     amodify lm2 l (fun sm2 => adelete sm2 user))), true)

/-- `reset_drive` (bot.py lines 377-384 and 613-620):
`leaderboard[drive_type] = {}` then flush; no validation of the name. -/
def reset_drive (L : Board) (d : String) : Board × FileState :=
  let L2 := aset L d []
  (L2, saveLeaderboard L2)

/-- `reset_all` (bot.py lines 387-396): clear and restore the three empty
categories, then flush. -/
def reset_all (_L : Board) : Board × FileState :=
  let L2 : Board := [("RWD", []), ("AWD", []), ("FWD", [])]
  (L2, saveLeaderboard L2)

/-! ## Reachable store states -/

/-- Board states reachable through the bot's operations, starting from the
initial empty-per-category store; `load` may bring in an arbitrary parsed
file, including foreign top-level keys. -/
inductive Reachable : Board → Prop
  | init : Reachable initialLeaderboard
  | submit1 (L : Board) (lst : AList Int) (now : Int) (user d t l : String)
      (score : Int) : Reachable L →
      Reachable (submitV1 ⟨L, lst⟩ now user d t l score).1.leaderboard
  | submit2 (L : Board) (lst : AList Int) (now : Int) (user d t l : String)
      (score : Int) : Reachable L →
      Reachable (submitV2 ⟨L, lst⟩ now user d t l score).1.leaderboard
  | del (L : Board) (d t l user : String) : Reachable L →
      Reachable (delete_score L d t l user).1
  | resetDrive (L : Board) (d : String) : Reachable L →
      Reachable (reset_drive L d).1
  | resetAll (L : Board) : Reachable L → Reachable (reset_all L).1
  | load (L : Board) (f : FileState) : Reachable L →
      Reachable (load_leaderboard L f).1

/-! ## Association-list lemmas -/

theorem alookup_aset_self {α : Type} (l : AList α) (k : String) (v : α) :
    alookup (aset l k v) k = some v := by
  induction l with
  | nil => simp [aset, alookup]
  | cons p rest ih =>
      obtain ⟨k2, v2⟩ := p
      by_cases h : k2 = k
      · simp [aset, alookup, h]
      · simp [aset, alookup, h, ih]

theorem alookup_aset_ne {α : Type} (l : AList α) (k k2 : String) (v : α)
    (h : k2 ≠ k) : alookup (aset l k v) k2 = alookup l k2 := by
  induction l with
  | nil => simp [aset, alookup, Ne.symm h]
  | cons p rest ih =>
      obtain ⟨k3, v3⟩ := p
      by_cases h3 : k3 = k
      · subst h3
        simp [aset, alookup, Ne.symm h]
      · simp [aset, alookup, h3, ih]

theorem mem_akeys_iff_isSome {α : Type} (l : AList α) (k : String) :
    k ∈ akeys l ↔ (alookup l k).isSome = true := by
  induction l with
  | nil => simp [akeys, alookup]
  | cons p rest ih =>
      obtain ⟨k2, v2⟩ := p
      by_cases h : k2 = k
      · subst h
        simp [akeys, alookup]
      · simp only [akeys] at ih
        simp [akeys, alookup, h, Ne.symm h, ih]

theorem alookup_eq_none_of_not_mem {α : Type} {l : AList α} {k : String}
    (h : k ∉ akeys l) : alookup l k = none := by
  rcases heq : alookup l k with _ | v
  · rfl
  · exact absurd ((mem_akeys_iff_isSome l k).2 (by simp [heq])) h

theorem aset_eq_append_of_not_mem {α : Type} {l : AList α} {k : String}
    (v : α) (h : k ∉ akeys l) : aset l k v = l ++ [(k, v)] := by
  induction l with
  | nil => simp [aset]
  | cons p rest ih =>
      obtain ⟨k2, v2⟩ := p
      simp only [akeys, List.map_cons, List.mem_cons] at h
      push_neg at h
      simp [aset, Ne.symm h.1, ih (by simpa [akeys] using h.2)]

theorem akeys_aset_of_mem {α : Type} {l : AList α} {k : String} (v : α)
    (h : k ∈ akeys l) : akeys (aset l k v) = akeys l := by
  induction l with
  | nil => simp [akeys] at h
  | cons p rest ih =>
      obtain ⟨k2, v2⟩ := p
      by_cases h2 : k2 = k
      · simp [aset, akeys, h2]
      · simp only [akeys, List.map_cons, List.mem_cons] at h
        rcases h with h | h
        · exact absurd h.symm h2
        · have ih2 := ih (by simpa [akeys] using h)
          simp only [akeys] at ih2
          simp [aset, akeys, h2, ih2]

theorem alookup_append_of_none {α : Type} {l : AList α} (l2 : AList α)
    {k : String} (h : alookup l k = none) :
    alookup (l ++ l2) k = alookup l2 k := by
  induction l with
  | nil => simp
  | cons p rest ih =>
      obtain ⟨k2, v2⟩ := p
      by_cases h2 : k2 = k
      · simp [alookup, h2] at h
      · simp only [alookup, h2, if_false] at h
        simp [alookup, h2, ih h]

theorem setdefault_of_isSome {α : Type} {l : AList α} {k : String} (v : α)
    (h : (alookup l k).isSome = true) : setdefault l k v = l := by
  rcases heq : alookup l k with _ | v2
  · simp [heq] at h
  · simp [setdefault, heq]

theorem alookup_setdefault_self {α : Type} (l : AList α) (k : String) (v : α) :
    alookup (setdefault l k v) k = some ((alookup l k).getD v) := by
  rcases heq : alookup l k with _ | v2
  · simp [setdefault, heq, alookup_append_of_none _ heq, alookup]
  · simp [setdefault, heq]

theorem alookup_amodify_self {α : Type} (l : AList α) (k : String) (f : α → α) :
    alookup (amodify l k f) k = (alookup l k).map f := by
  induction l with
  | nil => simp [amodify, alookup]
  | cons p rest ih =>
      obtain ⟨k2, v2⟩ := p
      by_cases h : k2 = k
      · simp [amodify, alookup, h]
      · simp [amodify, alookup, h, ih]

theorem alookup_amodify_ne {α : Type} (l : AList α) (k k2 : String)
    (f : α → α) (h : k2 ≠ k) :
    alookup (amodify l k f) k2 = alookup l k2 := by
  induction l with
  | nil => simp [amodify]
  | cons p rest ih =>
      obtain ⟨k3, v3⟩ := p
      by_cases h3 : k3 = k
      · subst h3
        simp [amodify, alookup, Ne.symm h]
      · simp [amodify, alookup, h3, ih]

theorem akeys_amodify {α : Type} (l : AList α) (k : String) (f : α → α) :
    akeys (amodify l k f) = akeys l := by
  induction l with
  | nil => simp [amodify]
  | cons p rest ih =>
      obtain ⟨k2, v2⟩ := p
      simp only [akeys] at ih
      by_cases h : k2 = k
      · simp [amodify, akeys, h]
      · simp [amodify, akeys, h, ih]

theorem amodify_eq_of_lookup {α : Type} {l : AList α} {k : String}
    {v : α} {f : α → α} (h : alookup l k = some v) (hf : f v = v) :
    amodify l k f = l := by
  induction l with
  | nil => simp [alookup] at h
  | cons p rest ih =>
      obtain ⟨k2, v2⟩ := p
      by_cases h2 : k2 = k
      · simp only [alookup, h2, if_pos rfl] at h
        cases h
        simp [amodify, h2, hf]
      · simp only [alookup, h2, if_false] at h
        simp [amodify, h2, ih h]

/-! ## Path lemmas for submit -/

theorem getScores_ensurePath (L : Board) (d t l : String) :
    getScores (ensurePath L d t l) d t l = getScores L d t l := by
  simp [getScores, ensurePath, alookup_amodify_self, alookup_setdefault_self]

theorem getScores_setScore_ensurePath (L : Board) (d t l u : String) (s : Int) :
    getScores (setScore (ensurePath L d t l) d t l u s) d t l
      = aset (getScores L d t l) u s := by
  simp [getScores, setScore, ensurePath, alookup_amodify_self,
    alookup_setdefault_self]

theorem isSome_alookup_ensurePath (L : Board) (d t l : String) :
    (alookup (ensurePath L d t l) d).isSome = true := by
  simp [ensurePath, alookup_amodify_self, alookup_setdefault_self]

theorem isSome_alookup_setScore {L : Board} {d : String} (d2 t l u : String)
    (s : Int) (h : (alookup L d).isSome = true) :
    (alookup (setScore L d2 t l u s) d).isSome = true := by
  by_cases hd : d = d2
  · subst hd
    simpa [setScore, alookup_amodify_self] using h
  · simpa [setScore, alookup_amodify_ne _ _ _ _ hd] using h

/-- The per-call effect of the second-revision submit on one tuple's
stored entry, conditional on the checks it performs before reaching the
personal-best test. -/
def specStep (cur : Option Int) (score : Int) : Option Int :=
  if score < 1 then cur
  else
    match cur with
    | none => some score
    | some c => if score ≤ c then some c else some score

theorem submitV2_step (st : BotState) (now : Int) (user d t l : String)
    (score : Int)
    (hd : (alookup st.leaderboard d).isSome = true)
    (ht : validTrackLayout t l = true)
    (hcool : ¬ now - (alookup st.last_submit_time user).getD 0 < COOLDOWN_SECONDS) :
    alookup (getScores (submitV2 st now user d t l score).1.leaderboard d t l) user
      = specStep (alookup (getScores st.leaderboard d t l) user) score
    ∧ (alookup (submitV2 st now user d t l score).1.leaderboard d).isSome = true := by
  obtain ⟨tm, htm⟩ := Option.isSome_iff_exists.1 hd
  unfold submitV2
  rw [if_neg hcool]
  by_cases hs : score < 1
  · rw [if_pos hs]
    exact ⟨by simp [specStep, hs], hd⟩
  · rw [if_neg hs, if_neg (by simp [htm]), if_neg (by simp [ht])]
    unfold submitCore
    rcases hcur : alookup (getScores st.leaderboard d t l) user with _ | c
    · rw [show alookup (getScores (ensurePath st.leaderboard d t l) d t l) user = none by
        rw [getScores_ensurePath]; exact hcur]
      constructor
      · rw [getScores_setScore_ensurePath, alookup_aset_self]
        simp [specStep, hs]
      · exact isSome_alookup_setScore d t l user score
          (isSome_alookup_ensurePath st.leaderboard d t l)
    · rw [show alookup (getScores (ensurePath st.leaderboard d t l) d t l) user = some c by
        rw [getScores_ensurePath]; exact hcur]
      dsimp only
      by_cases hc : score ≤ c
      · rw [if_pos hc]
        constructor
        · rw [getScores_ensurePath, hcur]
          simp [specStep, hs, hc]
        · exact isSome_alookup_ensurePath st.leaderboard d t l
      · rw [if_neg hc]
        constructor
        · rw [getScores_setScore_ensurePath, alookup_aset_self]
          simp [specStep, hs, hc]
        · exact isSome_alookup_setScore d t l user score
            (isSome_alookup_ensurePath st.leaderboard d t l)

/-- A sequence of second-revision submit calls for one fixed tuple. -/
def runSubmitsV2 (st : BotState) (user d t l : String)
    (calls : List (Int × Int)) : BotState :=
  calls.foldl (fun s c => (submitV2 s c.1 user d t l c.2).1) st

/-- Every call of the sequence is made outside the submitter's cooldown
window, in the state it actually encounters. -/
def allOutsideCooldown (st : BotState) (user d t l : String) :
    List (Int × Int) → Bool
  | [] => true
  | (now, score) :: rest =>
      decide (COOLDOWN_SECONDS ≤ now - (alookup st.last_submit_time user).getD 0)
      && allOutsideCooldown (submitV2 st now user d t l score).1 user d t l rest

theorem runSubmitsV2_entry (user d t l : String)
    (ht : validTrackLayout t l = true) :
    ∀ (calls : List (Int × Int)) (st : BotState),
      (alookup st.leaderboard d).isSome = true →
      allOutsideCooldown st user d t l calls = true →
      alookup (getScores (runSubmitsV2 st user d t l calls).leaderboard d t l) user
        = List.foldl specStep (alookup (getScores st.leaderboard d t l) user)
            (calls.map Prod.snd) := by
  intro calls
  induction calls with
  | nil => intro st _ _; simp [runSubmitsV2]
  | cons c rest ih =>
      intro st hd hcool
      obtain ⟨now, score⟩ := c
      simp only [allOutsideCooldown, Bool.and_eq_true, decide_eq_true_eq] at hcool
      obtain ⟨h1, h2⟩ := hcool
      have hstep := submitV2_step st now user d t l score hd ht (by omega)
      have hrun : runSubmitsV2 st user d t l ((now, score) :: rest)
          = runSubmitsV2 (submitV2 st now user d t l score).1 user d t l rest := rfl
      rw [hrun, ih (submitV2 st now user d t l score).1 hstep.2 h2, hstep.1]
      rfl

theorem specFold_some (l : List Int) : ∀ (c : Int),
    ∃ m, List.foldl specStep (some c) l = some m ∧ c ≤ m
      ∧ (m = c ∨ (m ∈ l ∧ 1 ≤ m)) ∧ ∀ s ∈ l, 1 ≤ s → s ≤ m := by
  induction l with
  | nil => intro c; exact ⟨c, rfl, le_refl c, Or.inl rfl, by simp⟩
  | cons s l ih =>
      intro c
      by_cases hs : s < 1
      · obtain ⟨m, hm, hcm, hor, hbound⟩ := ih c
        refine ⟨m, ?_, hcm, ?_, ?_⟩
        · simpa [List.foldl_cons, specStep, hs] using hm
        · rcases hor with h | h
          · exact Or.inl h
          · exact Or.inr ⟨List.mem_cons_of_mem s h.1, h.2⟩
        · intro x hx h1
          rcases List.mem_cons.1 hx with rfl | hx2
          · omega
          · exact hbound x hx2 h1
      · by_cases hsc : s ≤ c
        · obtain ⟨m, hm, hcm, hor, hbound⟩ := ih c
          refine ⟨m, ?_, hcm, ?_, ?_⟩
          · simpa [List.foldl_cons, specStep, hs, hsc] using hm
          · rcases hor with h | h
            · exact Or.inl h
            · exact Or.inr ⟨List.mem_cons_of_mem s h.1, h.2⟩
          · intro x hx h1
            rcases List.mem_cons.1 hx with rfl | hx2
            · omega
            · exact hbound x hx2 h1
        · obtain ⟨m, hm, hcm, hor, hbound⟩ := ih s
          refine ⟨m, ?_, by omega, ?_, ?_⟩
          · simpa [List.foldl_cons, specStep, hs, hsc] using hm
          · rcases hor with h | h
            · exact Or.inr ⟨by simp [h], by omega⟩
            · exact Or.inr ⟨List.mem_cons_of_mem s h.1, h.2⟩
          · intro x hx h1
            rcases List.mem_cons.1 hx with rfl | hx2
            · exact hcm
            · exact hbound x hx2 h1

theorem specFold_none (l : List Int) :
    (List.foldl specStep none l = none ↔ ∀ s ∈ l, s < 1)
    ∧ ∀ m, List.foldl specStep none l = some m →
        m ∈ l ∧ 1 ≤ m ∧ ∀ s ∈ l, 1 ≤ s → s ≤ m := by
  induction l with
  | nil => exact ⟨by simp, by simp⟩
  | cons s l ih =>
      by_cases hs : s < 1
      · have hstep : List.foldl specStep none (s :: l)
            = List.foldl specStep none l := by
          simp [List.foldl_cons, specStep, hs]
        constructor
        · rw [hstep, ih.1]
          constructor
          · intro h x hx
            rcases List.mem_cons.1 hx with rfl | hx2
            · exact hs
            · exact h x hx2
          · intro h x hx
            exact h x (List.mem_cons_of_mem s hx)
        · intro m hm
          rw [hstep] at hm
          obtain ⟨h1, h2, h3⟩ := ih.2 m hm
          refine ⟨List.mem_cons_of_mem s h1, h2, ?_⟩
          intro x hx hx1
          rcases List.mem_cons.1 hx with rfl | hx2
          · omega
          · exact h3 x hx2 hx1
      · have hstep : List.foldl specStep none (s :: l)
            = List.foldl specStep (some s) l := by
          simp [List.foldl_cons, specStep, hs]
        obtain ⟨m, hm, hsm, hor, hbound⟩ := specFold_some l s
        constructor
        · rw [hstep, hm]
          simp only [reduceCtorEq, false_iff]
          intro h
          exact absurd (h s (List.mem_cons_self s l)) hs
        · intro m2 hm2
          rw [hstep, hm] at hm2
          cases hm2
          refine ⟨?_, by omega, ?_⟩
          · rcases hor with h | h
            · simp [h]
            · exact List.mem_cons_of_mem s h.1
          · intro x hx hx1
            rcases List.mem_cons.1 hx with rfl | hx2
            · exact hsm
            · exact hbound x hx2 hx1

/-! ## Claim C1 -/

/-- C1 (amended to the second-revision submit, which checks `score < 1`;
the first revision performs no positivity check, see the counterexample):
for every tuple and submitter, and every finite sequence of submit calls
for that tuple each made outside the submitter's cooldown window, starting
from a state with no stored entry for the tuple and a drive type present
in the store, the stored best after the sequence equals the maximum of all
positive scores submitted — no entry exists iff no positive score was
submitted, and a stored value is a submitted positive score bounding every
submitted positive score. -/
theorem forza_C1_sequence_max (st : BotState) (user d t l : String)
    (calls : List (Int × Int))
    (hd : (alookup st.leaderboard d).isSome = true)
    (ht : validTrackLayout t l = true)
    (hstart : alookup (getScores st.leaderboard d t l) user = none)
    (hcool : allOutsideCooldown st user d t l calls = true) :
    (alookup (getScores (runSubmitsV2 st user d t l calls).leaderboard d t l) user = none
       ↔ ∀ s ∈ calls.map Prod.snd, s < 1)
    ∧ ∀ m,
        alookup (getScores (runSubmitsV2 st user d t l calls).leaderboard d t l) user = some m →
          m ∈ calls.map Prod.snd ∧ 1 ≤ m
          ∧ ∀ s ∈ calls.map Prod.snd, 1 ≤ s → s ≤ m := by
  have h := runSubmitsV2_entry user d t l ht calls st hd hcool
  rw [hstart] at h
  rw [h]
  exact specFold_none (calls.map Prod.snd)

/-- C1 witness: three cooldown-respecting submissions with scores 5, 3, 10
leave 10 stored, and the theorem reports 10 as the maximum positive
submitted score. -/
theorem forza_C1_witness :
    (10 : Int) ∈ ([(30, 5), (100, 3), (200, 10)] : List (Int × Int)).map Prod.snd
    ∧ (1 : Int) ≤ 10
    ∧ ∀ s ∈ ([(30, 5), (100, 3), (200, 10)] : List (Int × Int)).map Prod.snd,
        1 ≤ s → s ≤ 10 :=
  (forza_C1_sequence_max ⟨initialLeaderboard, []⟩ "bob" "RWD" "Brands Hatch"
      "Indy Circuit" [(30, 5), (100, 3), (200, 10)]
      (by decide) (by decide) (by decide) (by decide)).2 10 (by decide)

/-- C1 counterexample: the first-revision submit (bot.py lines 232-261)
has no positivity check, so a lone submission with score 0 — outside the
cooldown window, valid drive, track and layout, no prior entry — is
accepted and stored, although no positive score was ever submitted. -/
theorem forza_C1_counterexample :
    (submitV1 ⟨initialLeaderboard, []⟩ 30 "bob" "RWD" "Brands Hatch"
        "Indy Circuit" 0).2.1 = .accepted
    ∧ alookup (getScores (submitV1 ⟨initialLeaderboard, []⟩ 30 "bob" "RWD"
        "Brands Hatch" "Indy Circuit" 0).1.leaderboard
        "RWD" "Brands Hatch" "Indy Circuit") "bob" = some 0 := by
  decide

/-! ## Claim C2 -/

theorem getScores_some_path {L : Board} {d t l u : String} {c : Int}
    (h : alookup (getScores L d t l) u = some c) :
    ∃ tm lm sm, alookup L d = some tm ∧ alookup tm t = some lm
      ∧ alookup lm l = some sm := by
  unfold getScores at h
  rcases h1 : alookup L d with _ | tm
  · simp only [h1, Option.getD_none] at h
    simp [alookup] at h
  · simp only [h1, Option.getD_some] at h
    rcases h2 : alookup tm t with _ | lm
    · simp only [h2, Option.getD_none] at h
      simp [alookup] at h
    · simp only [h2, Option.getD_some] at h
      rcases h3 : alookup lm l with _ | sm
      · simp only [h3, Option.getD_none] at h
        simp [alookup] at h
      · exact ⟨tm, lm, sm, rfl, h2, h3⟩

theorem ensurePath_eq_self {L : Board} {d t l : String} {tm : TrackMap}
    {lm : LayoutMap} {sm : ScoreMap} (htm : alookup L d = some tm)
    (hlm : alookup tm t = some lm) (hsm : alookup lm l = some sm) :
    ensurePath L d t l = L := by
  unfold ensurePath
  rw [setdefault_of_isSome _ (by simp [htm])]
  apply amodify_eq_of_lookup htm
  rw [setdefault_of_isSome _ (by simp [hlm])]
  apply amodify_eq_of_lookup hlm
  exact setdefault_of_isSome _ (by simp [hsm])

/-- C2 (amended: the not-better report additionally requires the call to
pass the checks that precede the personal-best test — outside the cooldown
window, positive score in the second revision, valid track/layout, and for
the first revision a catalog drive type; a call failing one of those is
rejected with that earlier reason instead, still without changing state):
a submit whose score is at most the submitter's stored best for the tuple
leaves the whole state unchanged, flushes nothing, and reports the
not-better rejection carrying the current best. -/
theorem forza_C2_not_better_unchanged (st : BotState) (now : Int)
    (user d t l : String) (score c : Int)
    (hcool : ¬ now - (alookup st.last_submit_time user).getD 0 < COOLDOWN_SECONDS)
    (hpos : 1 ≤ score)
    (ht : validTrackLayout t l = true)
    (hcur : alookup (getScores st.leaderboard d t l) user = some c)
    (hle : score ≤ c) :
    submitV2 st now user d t l score = (st, .rejectedNotBetter c, false)
    ∧ (d ∈ DRIVE_TYPES →
        submitV1 st now user d t l score = (st, .rejectedNotBetter c, false)) := by
  obtain ⟨tm, lm, sm, htm, hlm, hsm⟩ := getScores_some_path hcur
  have hid : ensurePath st.leaderboard d t l = st.leaderboard :=
    ensurePath_eq_self htm hlm hsm
  have hcore : submitCore st now user d t l score
      = (st, .rejectedNotBetter c, false) := by
    unfold submitCore
    rw [hid, hcur]
    dsimp only
    rw [if_pos hle]
  refine ⟨?_, fun hdrive => ?_⟩
  · unfold submitV2
    rw [if_neg hcool, if_neg (by omega), if_neg (by simp [htm]),
      if_neg (by simp [ht])]
    exact hcore
  · unfold submitV1
    rw [if_neg hcool, if_neg (by simp [hdrive]), if_neg (by simp [ht])]
    exact hcore

/-- The state reached by accepting bob's score 100 on RWD / Brands Hatch /
Indy Circuit at time 30, used as a concrete prior state below. -/
def stBob100 : BotState :=
  (submitV2 ⟨initialLeaderboard, []⟩ 30 "bob" "RWD" "Brands Hatch"
    "Indy Circuit" 100).1

/-- C2 witness: with bob's stored best 100 and the cooldown expired, a
submission of 50 changes nothing and reports the not-better rejection
carrying 100. -/
theorem forza_C2_witness :
    submitV2 stBob100 100 "bob" "RWD" "Brands Hatch" "Indy Circuit" 50
      = (stBob100, .rejectedNotBetter 100, false) :=
  (forza_C2_not_better_unchanged stBob100 100 "bob" "RWD" "Brands Hatch"
    "Indy Circuit" 50 100 (by decide) (by decide) (by decide) (by decide)
    (by decide)).1

/-- C2 counterexample to the claim as stated: a submission of 50 against a
stored best of 100, made while the cooldown is still active, is reported
as the cooldown rejection, not as the not-better rejection carrying 100. -/
theorem forza_C2_counterexample :
    alookup (getScores stBob100.leaderboard "RWD" "Brands Hatch"
        "Indy Circuit") "bob" = some 100
    ∧ (50 : Int) ≤ 100
    ∧ (submitV2 stBob100 40 "bob" "RWD" "Brands Hatch" "Indy Circuit"
        50).2.1 = .rejectedCooldown
    ∧ (submitV2 stBob100 40 "bob" "RWD" "Brands Hatch" "Indy Circuit"
        50).2.1 ≠ .rejectedNotBetter 100 := by
  decide

/-! ## Claim C3 -/

theorem submitCore_cases (st : BotState) (now : Int) (user d t l : String)
    (score : Int) :
    (∃ c, submitCore st now user d t l score
        = ({ st with leaderboard := ensurePath st.leaderboard d t l },
           .rejectedNotBetter c, false) ∧ score ≤ c)
    ∨ submitCore st now user d t l score
        = ({ leaderboard := setScore (ensurePath st.leaderboard d t l) d t l user score,
             last_submit_time := aset st.last_submit_time user now },
           .accepted, true) := by
  unfold submitCore
  rcases alookup (getScores (ensurePath st.leaderboard d t l) d t l) user with _ | c
  · exact Or.inr rfl
  · dsimp only
    by_cases hc : score ≤ c
    · exact Or.inl ⟨c, by rw [if_pos hc], hc⟩
    · exact Or.inr (by rw [if_neg hc])

theorem submitV2_rejected_last_unchanged (st : BotState) (now : Int)
    (user d t l : String) (score : Int)
    (h : (submitV2 st now user d t l score).2.1 ≠ .accepted) :
    (submitV2 st now user d t l score).1.last_submit_time
      = st.last_submit_time := by
  unfold submitV2 at *
  by_cases h1 : now - (alookup st.last_submit_time user).getD 0 < COOLDOWN_SECONDS
  · rw [if_pos h1]
  · rw [if_neg h1] at h ⊢
    by_cases h2 : score < 1
    · rw [if_pos h2]
    · rw [if_neg h2] at h ⊢
      by_cases h3 : (alookup st.leaderboard d).isNone = true
      · rw [if_pos h3]
      · rw [if_neg h3] at h ⊢
        by_cases h4 : ¬ validTrackLayout t l = true
        · rw [if_pos h4]
        · rw [if_neg h4] at h ⊢
          rcases submitCore_cases st now user d t l score with ⟨c, hc, _⟩ | hc
          · rw [hc]
          · rw [hc] at h
            exact absurd rfl h

theorem submitV2_accepted_last (st : BotState) (now : Int)
    (user d t l : String) (score : Int)
    (h : (submitV2 st now user d t l score).2.1 = .accepted) :
    (submitV2 st now user d t l score).1.last_submit_time
      = aset st.last_submit_time user now := by
  unfold submitV2 at *
  by_cases h1 : now - (alookup st.last_submit_time user).getD 0 < COOLDOWN_SECONDS
  · rw [if_pos h1] at h
    exact absurd h (by simp)
  · rw [if_neg h1] at h ⊢
    by_cases h2 : score < 1
    · rw [if_pos h2] at h
      exact absurd h (by simp)
    · rw [if_neg h2] at h ⊢
      by_cases h3 : (alookup st.leaderboard d).isNone = true
      · rw [if_pos h3] at h
        exact absurd h (by simp)
      · rw [if_neg h3] at h ⊢
        by_cases h4 : ¬ validTrackLayout t l = true
        · rw [if_pos h4] at h
          exact absurd h (by simp)
        · rw [if_neg h4] at h ⊢
          rcases submitCore_cases st now user d t l score with ⟨c, hc, _⟩ | hc
          · rw [hc] at h
            exact absurd h (by simp)
          · rw [hc]

theorem submitV1_rejected_last_unchanged (st : BotState) (now : Int)
    (user d t l : String) (score : Int)
    (h : (submitV1 st now user d t l score).2.1 ≠ .accepted) :
    (submitV1 st now user d t l score).1.last_submit_time
      = st.last_submit_time := by
  unfold submitV1 at *
  by_cases h1 : now - (alookup st.last_submit_time user).getD 0 < COOLDOWN_SECONDS
  · rw [if_pos h1]
  · rw [if_neg h1] at h ⊢
    by_cases h2 : d ∉ DRIVE_TYPES
    · rw [if_pos h2]
    · rw [if_neg h2] at h ⊢
      by_cases h4 : ¬ validTrackLayout t l = true
      · rw [if_pos h4]
      · rw [if_neg h4] at h ⊢
        rcases submitCore_cases st now user d t l score with ⟨c, hc, _⟩ | hc
        · rw [hc]
        · rw [hc] at h
          exact absurd rfl h

theorem submitV1_accepted_last (st : BotState) (now : Int)
    (user d t l : String) (score : Int)
    (h : (submitV1 st now user d t l score).2.1 = .accepted) :
    (submitV1 st now user d t l score).1.last_submit_time
      = aset st.last_submit_time user now := by
  unfold submitV1 at *
  by_cases h1 : now - (alookup st.last_submit_time user).getD 0 < COOLDOWN_SECONDS
  · rw [if_pos h1] at h
    exact absurd h (by simp)
  · rw [if_neg h1] at h ⊢
    by_cases h2 : d ∉ DRIVE_TYPES
    · rw [if_pos h2] at h
      exact absurd h (by simp)
    · rw [if_neg h2] at h ⊢
      by_cases h4 : ¬ validTrackLayout t l = true
      · rw [if_pos h4] at h
        exact absurd h (by simp)
      · rw [if_neg h4] at h ⊢
        rcases submitCore_cases st now user d t l score with ⟨c, hc, _⟩ | hc
        · rw [hc] at h
          exact absurd h (by simp)
        · rw [hc]

theorem submitV2_cooldown_reject (st : BotState) (now : Int)
    (user d t l : String) (score : Int)
    (h : now - (alookup st.last_submit_time user).getD 0 < COOLDOWN_SECONDS) :
    submitV2 st now user d t l score = (st, .rejectedCooldown, false) := by
  unfold submitV2
  rw [if_pos h]

theorem submitV1_cooldown_reject (st : BotState) (now : Int)
    (user d t l : String) (score : Int)
    (h : now - (alookup st.last_submit_time user).getD 0 < COOLDOWN_SECONDS) :
    submitV1 st now user d t l score = (st, .rejectedCooldown, false) := by
  unfold submitV1
  rw [if_pos h]

theorem submitV2_cooldown_after_accept (st : BotState) (now1 : Int)
    (user d t l : String) (score : Int) (now2 : Int) (d2 t2 l2 : String)
    (score2 : Int)
    (hacc : (submitV2 st now1 user d t l score).2.1 = .accepted)
    (hwin : now2 - now1 < COOLDOWN_SECONDS) :
    (submitV2 (submitV2 st now1 user d t l score).1 now2 user d2 t2 l2
        score2).2.1 = .rejectedCooldown := by
  have hlast := submitV2_accepted_last st now1 user d t l score hacc
  rw [submitV2_cooldown_reject _ _ _ _ _ _ _
    (by rw [hlast, alookup_aset_self]; simpa using hwin)]

theorem submitV1_cooldown_after_accept (st : BotState) (now1 : Int)
    (user d t l : String) (score : Int) (now2 : Int) (d2 t2 l2 : String)
    (score2 : Int)
    (hacc : (submitV1 st now1 user d t l score).2.1 = .accepted)
    (hwin : now2 - now1 < COOLDOWN_SECONDS) :
    (submitV1 (submitV1 st now1 user d t l score).1 now2 user d2 t2 l2
        score2).2.1 = .rejectedCooldown := by
  have hlast := submitV1_accepted_last st now1 user d t l score hacc
  rw [submitV1_cooldown_reject _ _ _ _ _ _ _
    (by rw [hlast, alookup_aset_self]; simpa using hwin)]

/-- C3: in both submit revisions, `last_submit_time` is stamped exactly on
a stored (accepted) submission — every rejection leaves it unchanged and
an acceptance sets it to the call's time — and a second call from the same
submitter within the cooldown window of an accepted first call is rejected
with the cooldown outcome no matter what score, drive type, track or
layout it carries. -/
theorem forza_C3_cooldown_discipline :
    (∀ (st : BotState) (now : Int) (user d t l : String) (score : Int),
        (submitV2 st now user d t l score).2.1 ≠ .accepted →
          (submitV2 st now user d t l score).1.last_submit_time
            = st.last_submit_time)
    ∧ (∀ (st : BotState) (now : Int) (user d t l : String) (score : Int),
        (submitV2 st now user d t l score).2.1 = .accepted →
          (submitV2 st now user d t l score).1.last_submit_time
            = aset st.last_submit_time user now)
    ∧ (∀ (st : BotState) (now1 : Int) (user d t l : String) (score : Int)
          (now2 : Int) (d2 t2 l2 : String) (score2 : Int),
        (submitV2 st now1 user d t l score).2.1 = .accepted →
        now2 - now1 < COOLDOWN_SECONDS →
          (submitV2 (submitV2 st now1 user d t l score).1 now2 user d2 t2 l2
              score2).2.1 = .rejectedCooldown)
    ∧ (∀ (st : BotState) (now : Int) (user d t l : String) (score : Int),
        (submitV1 st now user d t l score).2.1 ≠ .accepted →
          (submitV1 st now user d t l score).1.last_submit_time
            = st.last_submit_time)
    ∧ (∀ (st : BotState) (now : Int) (user d t l : String) (score : Int),
        (submitV1 st now user d t l score).2.1 = .accepted →
          (submitV1 st now user d t l score).1.last_submit_time
            = aset st.last_submit_time user now)
    ∧ (∀ (st : BotState) (now1 : Int) (user d t l : String) (score : Int)
          (now2 : Int) (d2 t2 l2 : String) (score2 : Int),
        (submitV1 st now1 user d t l score).2.1 = .accepted →
        now2 - now1 < COOLDOWN_SECONDS →
          (submitV1 (submitV1 st now1 user d t l score).1 now2 user d2 t2 l2
              score2).2.1 = .rejectedCooldown) :=
  ⟨submitV2_rejected_last_unchanged, submitV2_accepted_last,
   submitV2_cooldown_after_accept, submitV1_rejected_last_unchanged,
   submitV1_accepted_last, submitV1_cooldown_after_accept⟩

/-- C3 witness: bob's accepted submission at time 30 makes a second call
at time 40 — different tuple, absurd score — rejected by the cooldown,
while a rejected (not-better) attempt leaves the stamp unchanged. -/
theorem forza_C3_witness :
    (submitV2 (submitV2 ⟨initialLeaderboard, []⟩ 30 "bob" "RWD" "Brands Hatch"
        "Indy Circuit" 100).1 40 "bob" "AWD" "Hakone" "Club Circuit"
        (-7)).2.1 = .rejectedCooldown
    ∧ (submitV2 stBob100 100 "bob" "RWD" "Brands Hatch" "Indy Circuit"
        50).1.last_submit_time = stBob100.last_submit_time :=
  ⟨forza_C3_cooldown_discipline.2.2.1 ⟨initialLeaderboard, []⟩ 30 "bob" "RWD"
      "Brands Hatch" "Indy Circuit" 100 40 "AWD" "Hakone" "Club Circuit" (-7)
      (by decide) (by decide),
   forza_C3_cooldown_discipline.1 stBob100 100 "bob" "RWD" "Brands Hatch"
      "Indy Circuit" 50 (by decide)⟩

/-! ## Claim C4 -/

/-- C4: a missing file at load keeps the initial empty-per-category store
and creates the file holding that state; malformed file content resets any
store to the empty-per-category state and immediately re-flushes it, so
the durable state is the empty store and re-reading it yields the empty
store — the corrupted data is never resurrected. -/
theorem forza_C4_load_selfheal :
    load_leaderboard initialLeaderboard .missing
        = (initialLeaderboard, .valid initialLeaderboard)
    ∧ (∀ L : Board, load_leaderboard L .corrupt
        = (initialLeaderboard, .valid initialLeaderboard))
    ∧ (load_leaderboard initialLeaderboard (.valid initialLeaderboard)).1
        = initialLeaderboard :=
  ⟨rfl, fun _ => rfl, by decide⟩

/-! ## Claim C9 -/

theorem mem_akeys_dictUpdate_left {α : Type} {base : AList α} (F : AList α)
    {k : String} (h : k ∈ akeys base) : k ∈ akeys (dictUpdate base F) := by
  induction F generalizing base with
  | nil => exact h
  | cons p rest ih =>
      obtain ⟨k2, v2⟩ := p
      have : k ∈ akeys (aset base k2 v2) := by
        by_cases h2 : k2 ∈ akeys base
        · rw [akeys_aset_of_mem v2 h2]
          exact h
        · rw [aset_eq_append_of_not_mem v2 h2]
          simp only [akeys, List.map_append]
          exact List.mem_append_left _ h
      exact ih this

theorem alookup_dictUpdate_not_mem {α : Type} {F : AList α} (base : AList α)
    {k : String} (h : k ∉ akeys F) :
    alookup (dictUpdate base F) k = alookup base k := by
  induction F generalizing base with
  | nil => rfl
  | cons p rest ih =>
      obtain ⟨k2, v2⟩ := p
      simp only [akeys, List.map_cons, List.mem_cons] at h
      push_neg at h
      have hrest : k ∉ akeys rest := by simpa [akeys] using h.2
      have : dictUpdate base ((k2, v2) :: rest) = dictUpdate (aset base k2 v2) rest := rfl
      rw [this, ih (aset base k2 v2) hrest, alookup_aset_ne _ _ _ _ h.1]

theorem alookup_dictUpdate_mem {α : Type} {F : AList α} (base : AList α)
    {k : String} {v : α} (hnd : (akeys F).Nodup) (h : alookup F k = some v) :
    alookup (dictUpdate base F) k = some v := by
  induction F generalizing base with
  | nil => simp [alookup] at h
  | cons p rest ih =>
      obtain ⟨k2, v2⟩ := p
      simp only [akeys, List.map_cons, List.nodup_cons] at hnd
      have hstep : dictUpdate base ((k2, v2) :: rest)
          = dictUpdate (aset base k2 v2) rest := rfl
      by_cases hk : k2 = k
      · subst hk
        simp only [alookup, if_pos rfl] at h
        cases h
        rw [hstep, alookup_dictUpdate_not_mem _ (by simpa [akeys] using hnd.1),
          alookup_aset_self]
      · simp only [alookup, hk, if_false] at h
        rw [hstep]
        exact ih (aset base k2 v2) (by simpa [akeys] using hnd.2) h

/-- C9: loading a parsed file into the default store merges the file's
top-level keys (`dict.update`): all three category keys remain present,
a category key absent from the file keeps its default empty table, and
every top-level key of the file — including foreign ones — ends up bound
in the store to exactly the file's value. -/
theorem forza_C9_load_merges (F : Board) (hF : (akeys F).Nodup) :
    ("RWD" ∈ akeys (load_leaderboard initialLeaderboard (.valid F)).1
      ∧ "AWD" ∈ akeys (load_leaderboard initialLeaderboard (.valid F)).1
      ∧ "FWD" ∈ akeys (load_leaderboard initialLeaderboard (.valid F)).1)
    ∧ (∀ d ∈ DRIVE_TYPES, d ∉ akeys F →
        alookup (load_leaderboard initialLeaderboard (.valid F)).1 d = some [])
    ∧ (∀ (k : String) (v : TrackMap), alookup F k = some v →
        alookup (load_leaderboard initialLeaderboard (.valid F)).1 k = some v) := by
  refine ⟨⟨?_, ?_, ?_⟩, ?_, ?_⟩
  · exact mem_akeys_dictUpdate_left F (by decide)
  · exact mem_akeys_dictUpdate_left F (by decide)
  · exact mem_akeys_dictUpdate_left F (by decide)
  · intro d hd hnot
    have hbase : alookup (dictUpdate initialLeaderboard F) d
        = alookup initialLeaderboard d := alookup_dictUpdate_not_mem _ hnot
    show alookup (dictUpdate initialLeaderboard F) d = some []
    rw [hbase]
    simp only [DRIVE_TYPES, List.mem_cons, List.mem_singleton] at hd
    rcases hd with rfl | rfl | rfl | h
    · rfl
    · rfl
    · rfl
    · simp at h
  · intro k v h
    exact alookup_dictUpdate_mem _ hF h

/-- A parsed file missing RWD and FWD but holding a foreign key and an
AWD table, used to instantiate the C9 theorem. -/
def fileF9 : Board := [("XXX", [("t", [])]), ("AWD", [("Brands Hatch", [])])]

/-- C9 witness: loading `fileF9` into the default store keeps RWD present
and empty, and binds both keys of the file to the file's values. -/
theorem forza_C9_witness :
    alookup (load_leaderboard initialLeaderboard (.valid fileF9)).1 "RWD" = some []
    ∧ alookup (load_leaderboard initialLeaderboard (.valid fileF9)).1 "XXX"
        = some [("t", [])]
    ∧ alookup (load_leaderboard initialLeaderboard (.valid fileF9)).1 "AWD"
        = some [("Brands Hatch", [])] :=
  ⟨(forza_C9_load_merges fileF9 (by decide)).2.1 "RWD" (by decide) (by decide),
   (forza_C9_load_merges fileF9 (by decide)).2.2 "XXX" [("t", [])] (by decide),
   (forza_C9_load_merges fileF9 (by decide)).2.2 "AWD" [("Brands Hatch", [])]
     (by decide)⟩

/-! ## Claim C5: shape invariant of reachable stores and roundtrip -/

/-- Every store the bot can reach keeps `RWD`, `AWD`, `FWD` as its first
three top-level keys, with all top-level keys distinct. -/
def hasShape (L : Board) : Prop :=
  (akeys L).take 3 = ["RWD", "AWD", "FWD"] ∧ (akeys L).Nodup

theorem hasShape_length {L : Board} (h : hasShape L) : 3 ≤ (akeys L).length := by
  have h3 := congrArg List.length h.1
  simp only [List.length_take, List.length_cons] at h3
  omega

theorem akeys_append_single {α : Type} (L : AList α) (k : String) (v : α) :
    akeys (L ++ [(k, v)]) = akeys L ++ [k] := by
  simp [akeys]

theorem hasShape_aset {L : Board} (k : String) (v : TrackMap)
    (h : hasShape L) : hasShape (aset L k v) := by
  by_cases hk : k ∈ akeys L
  · exact ⟨by rw [akeys_aset_of_mem v hk]; exact h.1,
      by rw [akeys_aset_of_mem v hk]; exact h.2⟩
  · rw [aset_eq_append_of_not_mem v hk]
    refine ⟨?_, ?_⟩
    · rw [akeys_append_single, List.take_append_of_le_length (hasShape_length h)]
      exact h.1
    · rw [akeys_append_single]
      simp [List.nodup_append, h.2, hk]

theorem hasShape_setdefault {L : Board} (k : String) (v : TrackMap)
    (h : hasShape L) : hasShape (setdefault L k v) := by
  unfold setdefault
  rcases hlk : alookup L k with _ | v2
  · have hk : k ∉ akeys L := by
      rw [mem_akeys_iff_isSome, hlk]
      simp
    constructor
    · rw [akeys_append_single, List.take_append_of_le_length (hasShape_length h)]
      exact h.1
    · rw [akeys_append_single]
      simp [List.nodup_append, h.2, hk]
  · exact h

theorem hasShape_amodify {L : Board} (k : String) (f : TrackMap → TrackMap)
    (h : hasShape L) : hasShape (amodify L k f) :=
  ⟨by rw [akeys_amodify]; exact h.1, by rw [akeys_amodify]; exact h.2⟩

theorem hasShape_dictUpdate {L : Board} (F : Board) (h : hasShape L) :
    hasShape (dictUpdate L F) := by
  induction F generalizing L with
  | nil => exact h
  | cons p rest ih => exact ih (hasShape_aset p.1 p.2 h)

theorem hasShape_ensurePath {L : Board} (d t l : String) (h : hasShape L) :
    hasShape (ensurePath L d t l) :=
  hasShape_amodify _ _ (hasShape_setdefault _ _ h)

theorem hasShape_setScore {L : Board} (d t l u : String) (s : Int)
    (h : hasShape L) : hasShape (setScore L d t l u s) :=
  hasShape_amodify _ _ h

theorem hasShape_initial : hasShape initialLeaderboard := by
  constructor
  · decide
  · decide

theorem hasShape_submitCore {st : BotState} (now : Int) (user d t l : String)
    (score : Int) (h : hasShape st.leaderboard) :
    hasShape (submitCore st now user d t l score).1.leaderboard := by
  rcases submitCore_cases st now user d t l score with ⟨c, hc, _⟩ | hc
  · rw [hc]
    exact hasShape_ensurePath d t l h
  · rw [hc]
    exact hasShape_setScore d t l user score (hasShape_ensurePath d t l h)

theorem hasShape_submitV1 {st : BotState} (now : Int) (user d t l : String)
    (score : Int) (h : hasShape st.leaderboard) :
    hasShape (submitV1 st now user d t l score).1.leaderboard := by
  unfold submitV1
  by_cases h1 : now - (alookup st.last_submit_time user).getD 0 < COOLDOWN_SECONDS
  · rw [if_pos h1]
    exact h
  · rw [if_neg h1]
    by_cases h2 : d ∉ DRIVE_TYPES
    · rw [if_pos h2]
      exact h
    · rw [if_neg h2]
      by_cases h3 : ¬ validTrackLayout t l = true
      · rw [if_pos h3]
        exact h
      · rw [if_neg h3]
        exact hasShape_submitCore now user d t l score h

theorem hasShape_submitV2 {st : BotState} (now : Int) (user d t l : String)
    (score : Int) (h : hasShape st.leaderboard) :
    hasShape (submitV2 st now user d t l score).1.leaderboard := by
  unfold submitV2
  by_cases h1 : now - (alookup st.last_submit_time user).getD 0 < COOLDOWN_SECONDS
  · rw [if_pos h1]
    exact h
  · rw [if_neg h1]
    by_cases h2 : score < 1
    · rw [if_pos h2]
      exact h
    · rw [if_neg h2]
      by_cases h3 : (alookup st.leaderboard d).isNone = true
      · rw [if_pos h3]
        exact h
      · rw [if_neg h3]
        by_cases h4 : ¬ validTrackLayout t l = true
        · rw [if_pos h4]
          exact h
        · rw [if_neg h4]
          exact hasShape_submitCore now user d t l score h

theorem hasShape_delete {L : Board} (d t l user : String)
    (h : hasShape L) : hasShape (delete_score L d t l user).1 := by
  unfold delete_score
  split
  · exact h
  · split
    · exact h
    · split
      · exact h
      · split
        · exact h
        · exact hasShape_amodify _ _ h

theorem hasShape_load {L : Board} (f : FileState) (h : hasShape L) :
    hasShape (load_leaderboard L f).1 := by
  rcases f with _ | _ | F
  · exact h
  · exact hasShape_initial
  · exact hasShape_dictUpdate F h

theorem reachable_hasShape {L : Board} (h : Reachable L) : hasShape L := by
  induction h with
  | init => exact hasShape_initial
  | submit1 L lst now user d t l score _ ih => exact hasShape_submitV1 now user d t l score ih
  | submit2 L lst now user d t l score _ ih => exact hasShape_submitV2 now user d t l score ih
  | del L d t l user _ ih => exact hasShape_delete d t l user ih
  | resetDrive L d _ ih => exact hasShape_aset d [] ih
  | resetAll L _ _ => exact hasShape_initial
  | load L f _ ih => exact hasShape_load f ih

theorem hasShape_destruct {L : Board} (h : hasShape L) :
    ∃ v1 v2 v3 rest, L = ("RWD", v1) :: ("AWD", v2) :: ("FWD", v3) :: rest
      ∧ (∀ p ∈ rest, p.1 ∉ (["RWD", "AWD", "FWD"] : List String))
      ∧ (akeys rest).Nodup := by
  obtain ⟨htake, hnd⟩ := h
  rcases L with _ | ⟨⟨k1, v1⟩, L⟩
  · simp [akeys] at htake
  rcases L with _ | ⟨⟨k2, v2⟩, L⟩
  · simp [akeys] at htake
  rcases L with _ | ⟨⟨k3, v3⟩, rest⟩
  · simp [akeys] at htake
  simp only [akeys, List.map_cons, List.take_succ_cons, List.take_zero,
    List.cons.injEq, and_true] at htake
  obtain ⟨rfl, rfl, rfl⟩ := htake
  simp only [akeys, List.map_cons, List.nodup_cons, List.mem_cons,
    List.mem_map] at hnd
  push_neg at hnd
  refine ⟨v1, v2, v3, rest, rfl, ?_, hnd.2.2.2⟩
  intro p hp
  have hR := hnd.1.2.2 p hp
  have hA := hnd.2.1.2 p hp
  have hF := hnd.2.2.1 p hp
  simp [hR, hA, hF]

theorem foldl_aset_append :
    ∀ (rest : AList TrackMap) (M : Board),
      (∀ p ∈ rest, p.1 ∉ akeys M) → (akeys rest).Nodup →
      List.foldl (fun b p => aset b p.1 p.2) M rest = M ++ rest := by
  intro rest
  induction rest with
  | nil => intro M _ _; simp
  | cons p rs ih =>
      intro M hmem hnd
      obtain ⟨k, v⟩ := p
      simp only [akeys, List.map_cons, List.nodup_cons] at hnd
      have h1 : aset M k v = M ++ [(k, v)] :=
        aset_eq_append_of_not_mem v (hmem (k, v) (List.mem_cons_self _ _))
      have hsub : ∀ q ∈ rs, q.1 ∉ akeys (M ++ [(k, v)]) := by
        intro q hq
        rw [akeys_append_single]
        simp only [List.mem_append, List.mem_singleton]
        push_neg
        refine ⟨hmem q (List.mem_cons_of_mem _ hq), ?_⟩
        intro hqk
        exact hnd.1 (by rw [← hqk]; exact List.mem_map_of_mem Prod.fst hq)
      rw [List.foldl_cons, h1,
        ih (M ++ [(k, v)]) hsub (by simpa [akeys] using hnd.2)]
      simp

theorem dictUpdate_init_of_hasShape {L : Board} (h : hasShape L) :
    dictUpdate initialLeaderboard L = L := by
  obtain ⟨v1, v2, v3, rest, rfl, hmem, hnd⟩ := hasShape_destruct h
  unfold dictUpdate
  simp only [List.foldl_cons]
  have h1 : aset initialLeaderboard "RWD" v1
      = [("RWD", v1), ("AWD", []), ("FWD", [])] := by
    simp [initialLeaderboard, aset]
  have h2 : aset [("RWD", v1), ("AWD", []), ("FWD", [])] "AWD" v2
      = [("RWD", v1), ("AWD", v2), ("FWD", [])] := by
    simp [aset]
  have h3 : aset [("RWD", v1), ("AWD", v2), ("FWD", [])] "FWD" v3
      = [("RWD", v1), ("AWD", v2), ("FWD", v3)] := by
    simp [aset]
  rw [h1, h2, h3]
  have hq : ∀ q ∈ rest, q.1 ∉ akeys [("RWD", v1), ("AWD", v2), ("FWD", v3)] := by
    intro q hqmem
    have := hmem q hqmem
    simpa [akeys] using this
  rw [foldl_aset_append rest [("RWD", v1), ("AWD", v2), ("FWD", v3)] hq hnd]
  rfl

/-- C5: for every reachable store, flushing it with `save_leaderboard` and
then loading the resulting file with `load_leaderboard` from the initial
store reproduces exactly the same store contents. -/
theorem forza_C5_flush_load_roundtrip (L : Board) (h : Reachable L) :
    (load_leaderboard initialLeaderboard (saveLeaderboard L)).1 = L :=
  dictUpdate_init_of_hasShape (reachable_hasShape h)

/-- C5 witness: the roundtrip at the concrete reachable store produced by
one accepted submission. -/
theorem forza_C5_witness :
    (load_leaderboard initialLeaderboard (saveLeaderboard
        (submitV2 ⟨initialLeaderboard, []⟩ 30 "bob" "RWD" "Brands Hatch"
          "Indy Circuit" 100).1.leaderboard)).1
      = (submitV2 ⟨initialLeaderboard, []⟩ 30 "bob" "RWD" "Brands Hatch"
          "Indy Circuit" 100).1.leaderboard :=
  forza_C5_flush_load_roundtrip _
    (Reachable.submit2 initialLeaderboard [] 30 "bob" "RWD" "Brands Hatch"
      "Indy Circuit" 100 Reachable.init)

/-! ## Claim C10 -/

/-- C10: `reset_drive` performs no catalog validation — for any string,
known category or not, it binds that top-level key to the empty table and
flushes the result; other keys are untouched, and an unknown name is
appended as a new top-level key. -/
theorem forza_C10_reset_drive_no_validation (L : Board) (d : String) :
    alookup (reset_drive L d).1 d = some []
    ∧ (reset_drive L d).2 = saveLeaderboard (reset_drive L d).1
    ∧ (∀ k, k ≠ d → alookup (reset_drive L d).1 k = alookup L k)
    ∧ (d ∉ akeys L → (reset_drive L d).1 = L ++ [(d, [])]) :=
  ⟨alookup_aset_self L d [], rfl,
   fun k hk => alookup_aset_ne L d k [] hk,
   fun hd => aset_eq_append_of_not_mem [] hd⟩

/-- C10 witness: resetting the unknown name NOT_A_DRIVE on the initial
store empties (creates) that key, leaves RWD alone, and appends the new
key at the end. -/
theorem forza_C10_witness :
    alookup (reset_drive initialLeaderboard "NOT_A_DRIVE").1 "NOT_A_DRIVE" = some []
    ∧ alookup (reset_drive initialLeaderboard "NOT_A_DRIVE").1 "RWD"
        = alookup initialLeaderboard "RWD"
    ∧ (reset_drive initialLeaderboard "NOT_A_DRIVE").1
        = initialLeaderboard ++ [("NOT_A_DRIVE", [])] :=
  ⟨(forza_C10_reset_drive_no_validation initialLeaderboard "NOT_A_DRIVE").1,
   (forza_C10_reset_drive_no_validation initialLeaderboard "NOT_A_DRIVE").2.2.1
     "RWD" (by decide),
   (forza_C10_reset_drive_no_validation initialLeaderboard "NOT_A_DRIVE").2.2.2
     (by decide)⟩

/-! ## Claim C6 -/

/-- The submitter's summed score within one layout's score table. -/
def userLayoutSum (sm : ScoreMap) (u : String) : Int :=
  (sm.map (fun p => if p.1 = u then p.2 else 0)).sum

/-- The submitter's summed score within one track (all its layouts). -/
def userTrackSum (lm : LayoutMap) (u : String) : Int :=
  (lm.map (fun p => userLayoutSum p.2 u)).sum

/-- The submitter's summed score within one drive type's table. -/
def userDriveSum (tm : TrackMap) (u : String) : Int :=
  (tm.map (fun p => userTrackSum p.2 u)).sum

theorem getD_addScore (t : AList Int) (vkey : String) (s : Int) (u : String) :
    (alookup (addScore t vkey s) u).getD 0
      = (alookup t u).getD 0 + (if vkey = u then s else 0) := by
  unfold addScore
  by_cases h : vkey = u
  · subst h
    rw [alookup_aset_self]
    simp
  · rw [alookup_aset_ne _ _ _ _ (Ne.symm h)]
    simp [h]

theorem getD_accScores (sm : ScoreMap) : ∀ (t : AList Int) (u : String),
    (alookup (accScores t sm) u).getD 0
      = (alookup t u).getD 0 + userLayoutSum sm u := by
  induction sm with
  | nil => simp [accScores, userLayoutSum]
  | cons p rest ih =>
      intro t u
      rw [show accScores t (p :: rest) = accScores (addScore t p.1 p.2) rest
        from rfl, ih, getD_addScore]
      unfold userLayoutSum
      simp only [List.map_cons, List.sum_cons]
      ring

theorem getD_accLayouts (lm : LayoutMap) : ∀ (t : AList Int) (u : String),
    (alookup (accLayouts t lm) u).getD 0
      = (alookup t u).getD 0 + userTrackSum lm u := by
  induction lm with
  | nil => simp [accLayouts, userTrackSum]
  | cons p rest ih =>
      intro t u
      rw [show accLayouts t (p :: rest) = accLayouts (accScores t p.2) rest
        from rfl, ih, getD_accScores]
      unfold userTrackSum
      simp only [List.map_cons, List.sum_cons]
      ring

theorem getD_accTracks (tm : TrackMap) : ∀ (t : AList Int) (u : String),
    (alookup (accTracks t tm) u).getD 0
      = (alookup t u).getD 0 + userDriveSum tm u := by
  induction tm with
  | nil => simp [accTracks, userDriveSum]
  | cons p rest ih =>
      intro t u
      rw [show accTracks t (p :: rest) = accTracks (accLayouts t p.2) rest
        from rfl, ih, getD_accLayouts]
      unfold userDriveSum
      simp only [List.map_cons, List.sum_cons]
      ring

theorem getD_driveTotals (L : Board) (d u : String) :
    (alookup (driveTotals L d) u).getD 0
      = userDriveSum ((alookup L d).getD []) u := by
  unfold driveTotals
  rw [getD_accTracks]
  simp [alookup]

theorem getD_foldl_accTracks (L : Board) : ∀ (t : AList Int) (u : String),
    (alookup (L.foldl (fun acc dp => accTracks acc dp.2) t) u).getD 0
      = (alookup t u).getD 0 + (L.map (fun dp => userDriveSum dp.2 u)).sum := by
  induction L with
  | nil => simp
  | cons p rest ih =>
      intro t u
      rw [List.foldl_cons, ih, getD_accTracks]
      simp only [List.map_cons, List.sum_cons]
      ring

theorem getD_overallTotals (L : Board) (u : String) :
    (alookup (overallTotals L) u).getD 0
      = (L.map (fun dp => userDriveSum dp.2 u)).sum := by
  unfold overallTotals
  rw [getD_foldl_accTracks]
  simp [alookup]

theorem keys_eq_three_destruct (L : Board)
    (h : akeys L = ["RWD", "AWD", "FWD"]) :
    ∃ v1 v2 v3, L = [("RWD", v1), ("AWD", v2), ("FWD", v3)] := by
  rcases L with _ | ⟨⟨k1, v1⟩, L⟩
  · simp [akeys] at h
  rcases L with _ | ⟨⟨k2, v2⟩, L⟩
  · simp [akeys] at h
  rcases L with _ | ⟨⟨k3, v3⟩, L⟩
  · simp [akeys] at h
  rcases L with _ | ⟨p, L⟩
  · simp only [akeys, List.map_cons, List.map_nil, List.cons.injEq,
      and_true] at h
    obtain ⟨rfl, rfl, rfl⟩ := h
    exact ⟨v1, v2, v3, rfl⟩
  · simp [akeys] at h

/-- C6 (amended: the identity holds when the store's top-level keys are
exactly the three categories; the grand total always sums over every
top-level key actually present, so a store carrying a foreign key with
entries — reachable by loading such a file — breaks the three-category
identity, see the counterexample): with exactly the keys RWD, AWD, FWD,
the overall aggregate of a submitter equals the sum of that submitter's
three per-drive aggregates. -/
theorem forza_C6_overall_eq_sum_drives (L : Board) (u : String)
    (h : akeys L = DRIVE_TYPES) :
    (alookup (overallTotals L) u).getD 0
      = (alookup (driveTotals L "RWD") u).getD 0
        + (alookup (driveTotals L "AWD") u).getD 0
        + (alookup (driveTotals L "FWD") u).getD 0 := by
  obtain ⟨v1, v2, v3, rfl⟩ :=
    keys_eq_three_destruct L (by simpa [DRIVE_TYPES] using h)
  rw [getD_overallTotals, getD_driveTotals, getD_driveTotals, getD_driveTotals]
  simp [alookup]
  ring

/-- C6 witness: on the initial store extended by bob's accepted RWD score,
the overall total equals the sum of the three per-drive totals. -/
theorem forza_C6_witness :
    (alookup (overallTotals stBob100.leaderboard) "bob").getD 0
      = (alookup (driveTotals stBob100.leaderboard "RWD") "bob").getD 0
        + (alookup (driveTotals stBob100.leaderboard "AWD") "bob").getD 0
        + (alookup (driveTotals stBob100.leaderboard "FWD") "bob").getD 0 :=
  forza_C6_overall_eq_sum_drives stBob100.leaderboard "bob" (by decide)

/-- The store obtained by loading a file whose only key is the foreign
name XXX holding a score of 5 for alice. -/
def boardXXX : Board :=
  (load_leaderboard initialLeaderboard
    (.valid [("XXX", [("t", [("l", [("alice", 5)])])])])).1

/-- C6 counterexample: on `boardXXX` — a store reachable by a load — the
grand total for alice is 5 while the sum of her three per-category
aggregates is 0. -/
theorem forza_C6_counterexample :
    (alookup (overallTotals boardXXX) "alice").getD 0 = 5
    ∧ (alookup (driveTotals boardXXX "RWD") "alice").getD 0
        + (alookup (driveTotals boardXXX "AWD") "alice").getD 0
        + (alookup (driveTotals boardXXX "FWD") "alice").getD 0 = 0
    ∧ (5 : Int) ≠ 0 := by
  decide

/-! ## Claim C7 -/

theorem rankedList_sorted (m : AList Int) :
    List.Pairwise (fun a b => b.2 ≤ a.2) (rankedList m) :=
  List.sorted_insertionSort scoreDescRel m

theorem rankedList_perm (m : AList Int) : List.Perm (rankedList m) m :=
  List.perm_insertionSort scoreDescRel m

theorem nextIndex_found : ∀ (xs : List (String × Int)) (u : String) (i : Nat),
    u ∈ xs.map Prod.fst →
    nextIndex xs u i = some (xs.findIdx (fun p => p.1 = u) + i) := by
  intro xs
  induction xs with
  | nil =>
      intro u i h
      simp at h
  | cons p rest ih =>
      intro u i h
      obtain ⟨k, v⟩ := p
      by_cases hk : k = u
      · subst hk
        simp [nextIndex, List.findIdx_cons]
      · have hmem : u ∈ rest.map Prod.fst := by
          rw [List.map_cons] at h
          rcases List.mem_cons.1 h with h2 | h2
          · exact absurd h2.symm hk
          · exact h2
        rw [show nextIndex ((k, v) :: rest) u i = nextIndex rest u (i + 1) by
          simp [nextIndex, hk], ih u (i + 1) hmem]
        simp only [List.findIdx_cons]
        have hdec : (decide ((k, v).1 = u)) = false := by
          simp [hk]
        rw [hdec]
        simp only [cond_false]
        congr 1
        omega

/-- C7: every ranking query result — single scope, per-category, grand
total — is the descending-by-score ordering of its aggregate map truncated
to the first ten entries, and `rank_for` reports the 1-based position of
the submitter in the descending ordering of the aggregate map. -/
theorem forza_C7_ranking :
    (∀ (L : Board) (d t l : String),
        List.Pairwise (fun a b => b.2 ≤ a.2) (leaderboardTrackEntries L d t l)
        ∧ (leaderboardTrackEntries L d t l).length ≤ 10
        ∧ leaderboardTrackEntries L d t l
            = (rankedList (getScores L d t l)).take 10)
    ∧ (∀ (L : Board) (d : String),
        List.Pairwise (fun a b => b.2 ≤ a.2) (leaderboardDriveEntries L d)
        ∧ (leaderboardDriveEntries L d).length ≤ 10
        ∧ leaderboardDriveEntries L d = (rankedList (driveTotals L d)).take 10)
    ∧ (∀ L : Board,
        List.Pairwise (fun a b => b.2 ≤ a.2) (leaderboardOverallEntries L)
        ∧ (leaderboardOverallEntries L).length ≤ 10
        ∧ leaderboardOverallEntries L = (rankedList (overallTotals L)).take 10)
    ∧ (∀ m : AList Int, List.Perm (rankedList m) m)
    ∧ (∀ (m : AList Int) (u : String), u ∈ akeys m →
        rank_for m u
          = some ((rankedList m).findIdx (fun p => p.1 = u) + 1)) := by
  refine ⟨fun L d t l => ⟨?_, ?_, rfl⟩, fun L d => ⟨?_, ?_, rfl⟩,
    fun L => ⟨?_, ?_, rfl⟩, fun m => rankedList_perm m, fun m u hu => ?_⟩
  · exact List.Pairwise.sublist (List.take_sublist 10 _) (rankedList_sorted _)
  · exact List.length_take_le 10 _
  · exact List.Pairwise.sublist (List.take_sublist 10 _) (rankedList_sorted _)
  · exact List.length_take_le 10 _
  · exact List.Pairwise.sublist (List.take_sublist 10 _) (rankedList_sorted _)
  · exact List.length_take_le 10 _
  · exact nextIndex_found (rankedList m) u 1
      (((rankedList_perm m).map Prod.fst).mem_iff.2 hu)

/-- C7 witness: in the two-entry map, b with the higher score ranks first
in the descending ordering. -/
theorem forza_C7_witness :
    rank_for [("a", 1), ("b", 5)] "b"
      = some ((rankedList [("a", 1), ("b", 5)]).findIdx
          (fun p => p.1 = "b") + 1) :=
  forza_C7_ranking.2.2.2.2 [("a", 1), ("b", 5)] "b" (by decide)

/-! ## Claim C8 -/

theorem isSome_alookup_iff_exists {α : Type} (sm : AList α) (u : String) :
    (alookup sm u).isSome = true ↔ ∃ q ∈ sm, q.1 = u := by
  rw [← mem_akeys_iff_isSome]
  simp [akeys, List.mem_map]

theorem mem_akeys_addScore (t : AList Int) (v : String) (s : Int) (u : String) :
    u ∈ akeys (addScore t v s) ↔ u ∈ akeys t ∨ v = u := by
  unfold addScore
  by_cases hv : v ∈ akeys t
  · rw [akeys_aset_of_mem _ hv]
    constructor
    · exact Or.inl
    · rintro (h | rfl)
      · exact h
      · exact hv
  · rw [aset_eq_append_of_not_mem _ hv, akeys_append_single]
    simp [eq_comm]

theorem mem_akeys_accScores (sm : ScoreMap) : ∀ (t : AList Int) (u : String),
    u ∈ akeys (accScores t sm) ↔ u ∈ akeys t ∨ ∃ p ∈ sm, p.1 = u := by
  induction sm with
  | nil => simp [accScores]
  | cons p rest ih =>
      intro t u
      rw [show accScores t (p :: rest) = accScores (addScore t p.1 p.2) rest
        from rfl, ih, mem_akeys_addScore]
      simp only [List.mem_cons]
      constructor
      · rintro ((h | h) | ⟨q, hq, hqu⟩)
        · exact Or.inl h
        · exact Or.inr ⟨p, Or.inl rfl, h⟩
        · exact Or.inr ⟨q, Or.inr hq, hqu⟩
      · rintro (h | ⟨q, hq | hq, hqu⟩)
        · exact Or.inl (Or.inl h)
        · subst hq
          exact Or.inl (Or.inr hqu)
        · exact Or.inr ⟨q, hq, hqu⟩

theorem mem_akeys_accLayouts (lm : LayoutMap) : ∀ (t : AList Int) (u : String),
    u ∈ akeys (accLayouts t lm)
      ↔ u ∈ akeys t ∨ ∃ p ∈ lm, ∃ q ∈ p.2, q.1 = u := by
  induction lm with
  | nil => simp [accLayouts]
  | cons p rest ih =>
      intro t u
      rw [show accLayouts t (p :: rest) = accLayouts (accScores t p.2) rest
        from rfl, ih, mem_akeys_accScores]
      simp only [List.mem_cons]
      constructor
      · rintro ((h | ⟨q, hq, hqu⟩) | ⟨q, hq, hq2⟩)
        · exact Or.inl h
        · exact Or.inr ⟨p, Or.inl rfl, q, hq, hqu⟩
        · exact Or.inr ⟨q, Or.inr hq, hq2⟩
      · rintro (h | ⟨q, hq | hq, hq2⟩)
        · exact Or.inl (Or.inl h)
        · subst hq
          exact Or.inl (Or.inr hq2)
        · exact Or.inr ⟨q, hq, hq2⟩

theorem mem_akeys_accTracks (tm : TrackMap) : ∀ (t : AList Int) (u : String),
    u ∈ akeys (accTracks t tm)
      ↔ u ∈ akeys t ∨ ∃ tp ∈ tm, ∃ lp ∈ tp.2, ∃ q ∈ lp.2, q.1 = u := by
  induction tm with
  | nil => simp [accTracks]
  | cons p rest ih =>
      intro t u
      rw [show accTracks t (p :: rest) = accTracks (accLayouts t p.2) rest
        from rfl, ih, mem_akeys_accLayouts]
      simp only [List.mem_cons]
      constructor
      · rintro ((h | ⟨q, hq, hq2⟩) | ⟨q, hq, hq2⟩)
        · exact Or.inl h
        · exact Or.inr ⟨p, Or.inl rfl, q, hq, hq2⟩
        · exact Or.inr ⟨q, Or.inr hq, hq2⟩
      · rintro (h | ⟨q, hq | hq, hq2⟩)
        · exact Or.inl (Or.inl h)
        · subst hq
          exact Or.inl (Or.inr hq2)
        · exact Or.inr ⟨q, hq, hq2⟩

theorem driveTotals_isSome_iff_hasEntry (L : Board) (u d : String) :
    (alookup (driveTotals L d) u).isSome = true ↔ hasEntry L u d = true := by
  rw [← mem_akeys_iff_isSome]
  unfold driveTotals hasEntry
  rw [mem_akeys_accTracks]
  simp [List.any_eq_true, isSome_alookup_iff_exists, akeys]

/-- C8 (amended: the equivalence is asserted for queries that actually
produce the stats embed, i.e. the accumulation does not crash on a foreign
top-level key and the overall total is nonzero; when every stored score of
the submitter sums to zero — possible only through non-positive stored
scores — the query replies that there are no recorded scores and shows no
per-category field even though entries exist, see the counterexample):
in a produced stats response, a per-category total-and-rank field is
included for a catalog category iff the submitter has at least one score
entry in that category. -/
theorem forza_C8_fields_iff (L : Board) (u : String) (r : StatsResponse)
    (d : String) (hd : d ∈ DRIVE_TYPES)
    (hok : my_stats L u = .ok (some r)) :
    (∃ x, (d, x) ∈ r.fields) ↔ hasEntry L u d = true := by
  unfold my_stats at hok
  rcases hacc : myStatsAcc L u with e | pr
  · rw [hacc] at hok
    simp at hok
  · rw [hacc] at hok
    obtain ⟨perDrive, overall⟩ := pr
    dsimp only at hok
    by_cases hz : overall = 0
    · rw [if_pos hz] at hok
      simp at hok
    · rw [if_neg hz] at hok
      simp only [Except.ok.injEq, Option.some.injEq] at hok
      subst hok
      dsimp only
      constructor
      · rintro ⟨x, hx⟩
        rw [List.mem_filterMap] at hx
        obtain ⟨d2, hd2, hf⟩ := hx
        by_cases hs : (alookup (driveTotals L d2) u).isSome = true
        · rw [if_pos hs] at hf
          simp only [Option.some.injEq, Prod.mk.injEq] at hf
          obtain ⟨rfl, -⟩ := hf
          exact (driveTotals_isSome_iff_hasEntry L u d2).1 hs
        · rw [if_neg hs] at hf
          exact absurd hf (by simp)
      · intro hent
        have hs := (driveTotals_isSome_iff_hasEntry L u d).2 hent
        exact ⟨((alookup perDrive d).getD 0, rank_for (driveTotals L d) u),
          List.mem_filterMap.2 ⟨d, hd, by rw [if_pos hs]⟩⟩

/-- C8 witness: in the stats response for bob on the store holding his
single RWD score, the RWD field is present, so the theorem yields that bob
has an entry in RWD. -/
theorem forza_C8_witness : hasEntry stBob100.leaderboard "bob" "RWD" = true :=
  (forza_C8_fields_iff stBob100.leaderboard "bob"
      ⟨100, some 1, [("RWD", (100, some 1))]⟩ "RWD" (by decide)
      (by decide)).1 ⟨(100, some 1), by decide⟩

/-- The store holding a single zero score for bob, reachable through the
first-revision submit, which performs no positivity check. -/
def boardZero : Board :=
  (submitV1 ⟨initialLeaderboard, []⟩ 30 "bob" "RWD" "Brands Hatch"
    "Indy Circuit" 0).1.leaderboard

/-- C8 counterexample to the claim as stated: bob has a score entry in
RWD, yet `my_stats` answers with the no-recorded-scores reply (modelled
`.ok none`), which contains no per-category field at all — the inclusion
equivalence fails for the response actually produced. -/
theorem forza_C8_counterexample :
    my_stats boardZero "bob" = .ok none
    ∧ hasEntry boardZero "bob" "RWD" = true := by
  decide

end ForzaDriftBot
